import Mathlib

/-
  Verification development for doitlive (src/doitlive.py), a tool that replays
  shell-command scripts with keystroke-paced "live typing".

  The Python source is shallowly embedded below:
  * strings are Lean `String`/`List Char`,
  * Python exceptions are an explicit `PyError` in `Except`,
  * the blocking `getchar` stream is an explicit list of input characters,
  * OS effects (chdir, HOME, subprocess exit codes) are oracle functions
    passed in a `Ctx` record.
-/

namespace Doitlive

/-- Python whitespace characters (the ASCII portion of `str.isspace`). -/
def isPySpace (c : Char) : Bool :=
  c = ' ' || c = '\t' || c = '\n' || c = '\r' || c = '\x0b' || c = '\x0c'

/-- Does the list `hay` start with the list `pat`? (Python `str.startswith`.) -/
def startsWithL : List Char → List Char → Bool
  | _, [] => true
  | [], _ :: _ => false
  | c :: cs, d :: ds => c = d && startsWithL cs ds

/-- Python `str.startswith` on `String`s. -/
def pyStartsWith (s pat : String) : Bool :=
  startsWithL s.data pat.data

/-- Python `str.strip()` on a character list. -/
def pyStripL (l : List Char) : List Char :=
  ((l.dropWhile isPySpace).reverse.dropWhile isPySpace).reverse

/-- Python `str.strip()`. -/
def pyStrip (s : String) : String :=
  ⟨pyStripL s.data⟩

/-- Python `str.rstrip(sep)` for the single character slash, on lists. -/
def rstripSlashL (l : List Char) : List Char :=
  (l.reverse.dropWhile (· = '/')).reverse

/-- Python `str.split()` with no argument: split on whitespace runs,
discarding empty fields. `acc` holds the current word reversed. -/
def wordsAux : List Char → List Char → List (List Char)
  | [], acc => if acc.isEmpty then [] else [acc.reverse]
  | c :: cs, acc =>
    if isPySpace c then
      if acc.isEmpty then wordsAux cs [] else acc.reverse :: wordsAux cs []
    else wordsAux cs (c :: acc)

/-- Python `str.split()` with no argument. -/
def pySplit (s : String) : List String :=
  (wordsAux s.data []).map String.mk

/-- Substring test: Python `needle in haystack` for strings. -/
def containsL (needle : List Char) : List Char → Bool
  | [] => needle.isEmpty
  | c :: t => startsWithL (c :: t) needle || containsL needle t

/-- Python `needle in haystack` on `String`s. -/
def pyContains (hay needle : String) : Bool :=
  containsL needle.data hay.data

/-- Digits-to-number accumulator for `pyInt`. -/
def digitsVal : List Char → Option Nat → Option Nat
  | [], acc => acc
  | c :: cs, acc =>
    if c.isDigit then
      digitsVal cs (some ((acc.getD 0) * 10 + (c.toNat - 48)))
    else none

/-- Python `int(s)` on a decimal string: surrounding whitespace allowed,
one optional sign, then at least one ASCII digit (digit-group underscores
of Python 3.6+ are not modelled; no directive in the claims uses them).
`none` models the `ValueError` raised on anything else. -/
def pyInt (s : String) : Option Int :=
  let t := pyStripL s.data
  match t with
  | '+' :: ds => (digitsVal ds none).map (fun n => (n : Int))
  | '-' :: ds => (digitsVal ds none).map (fun n => -(n : Int))
  | ds => (digitsVal ds none).map (fun n => (n : Int))

/-- `posixpath.expanduser`: expand a leading `~` (the bare-user form) to the
home directory taken from the environment. The `~user` form consults the
system user database, which is outside the process environment; it is
modelled as the lookup failing, in which case `expanduser` returns the path
unchanged (exactly what CPython does for an unknown user). -/
def expanduser (home : String) (path : String) : String :=
  if pyStartsWith path "~" then
    let rest : List Char := path.data.drop 1
    if rest.isEmpty || startsWithL rest ['/'] then
      let uh := rstripSlashL home.data
      let r : String := ⟨uh ++ rest⟩
      if r = "" then "/" else r
    else path
  else path

/-- Skip the tail of one ANSI escape sequence: after `"\x1b["`, consume
`[;?0-9]*` then exactly one ASCII letter, returning the remainder
(`none` when the regex does not match here). Mirrors click's
`strip_ansi` pattern. -/
def ansiSkip : List Char → Option (List Char)
  | [] => none
  | c :: r =>
    if c = ';' || c = '?' || c.isDigit then ansiSkip r
    else if c.isAlpha then some r
    else none

/-- click's `strip_ansi`: delete every substring matching
`\x1b\[[;?0-9]*[a-zA-Z]`; `re.sub` advances one character past any
position where the pattern fails to match. The fuel argument only makes
the recursion structural: every recursive call consumes at least one
character, so `fuel = length` (as passed by `stripAnsiL`) never runs
out. -/
def stripAnsiFuel : Nat → List Char → List Char
  | 0, l => l
  | _ + 1, [] => []
  | fuel + 1, c :: rest =>
    if c = '\x1b' then
      match rest with
      | '[' :: r2 =>
        match ansiSkip r2 with
        | some r3 => stripAnsiFuel fuel r3
        | none => c :: stripAnsiFuel fuel ('[' :: r2)
      | r => c :: stripAnsiFuel fuel r
    else c :: stripAnsiFuel fuel rest

/-- click's `strip_ansi` on a character list. -/
def stripAnsiL (l : List Char) : List Char :=
  stripAnsiFuel l.length l

/-- click's `strip_ansi` on `String`s. -/
def stripAnsi (s : String) : String :=
  ⟨stripAnsiL s.data⟩

/-! `TermString` style modifiers (src/doitlive.py lines 92-139). A
`TermString` is just a string that may contain ANSI codes, so the
modifiers are functions `String → String`. -/

/-- `TermString._bracketed`: wrap the styled value when its underlying
text (ANSI codes stripped) is non-empty, else yield a single backspace. -/
def bracketed (left right : String) (s : String) : String :=
  if stripAnsi s = "" then "\x08" else left ++ s ++ right

/-- The `paren` modifier. -/
def parenMod (s : String) : String := bracketed "(" ")" s

/-- The `square` modifier. -/
def squareMod (s : String) : String := bracketed "[" "]" s

/-- The `curly` modifier. -/
def curlyMod (s : String) : String := bracketed "\x7b" "\x7d" s

/-- click's `style('git', fg='blue')`: blue foreground code, the text,
then the reset code. -/
def gitLabel : String := "\x1b[34m" ++ "git" ++ "\x1b[0m"

/-- The `git` label modifier (`TermString.git`). -/
def gitMod (s : String) : String :=
  if stripAnsi s = "" then "\x08" else gitLabel ++ ":" ++ s

/-- One step of a terminal display model: printable characters overwrite
the cell under the cursor (or append at the right edge) and move the
cursor right; backspace moves the cursor left. Used to state that the
backspace result of an empty bracket modifier displays nothing. -/
def termStep : List Char × Nat → Char → List Char × Nat
  | (buf, pos), c =>
    if c = '\x08' then (buf, pos - 1)
    else if pos < buf.length then (buf.set pos c, pos + 1)
    else (buf ++ [c], pos + 1)

/-- Net visible text after typing `s` at column 0 of an empty line. -/
def termRender (s : String) : String :=
  ⟨(s.data.foldl termStep ([], 0)).1⟩

/-! ## Directive grammar (OPTION_RE, src/doitlive.py lines 74-76)

`^#\s?doitlive\s+(?P<option>prompt|shell|alias|env|speed):\s*(?P<arg>.+)$`

The regex is deterministic except for `\s*(.+)$` at the end: `\s*` is
greedy but backtracks one character when `.+` would otherwise be empty,
so an all-whitespace remainder yields its last character as the
argument. (Inside `run` the line is `strip()`ped first, so that corner
never produces a directive there.) `.` never matches a newline; the
lines fed to the regex contain none. -/

/-- Match the tail of `\s*(?P<arg>.+)$` against the text after the colon. -/
def argOf (rest : List Char) : Option String :=
  if rest.isEmpty then none
  else
    let t := rest.dropWhile isPySpace
    if t.isEmpty then (rest.getLast?).map (fun c => String.mk [c])
    else some ⟨t⟩

/-- Match `(prompt|shell|alias|env|speed):` at the head of `l`, returning
the option name and the remainder after the colon. -/
def matchKey (l : List Char) : Option (String × List Char) :=
  if startsWithL l "prompt:".data then some ("prompt", l.drop 7)
  else if startsWithL l "shell:".data then some ("shell", l.drop 6)
  else if startsWithL l "alias:".data then some ("alias", l.drop 6)
  else if startsWithL l "env:".data then some ("env", l.drop 4)
  else if startsWithL l "speed:".data then some ("speed", l.drop 6)
  else none

/-- Match everything after the leading `#`: `\s?doitlive\s+` then the
option key and argument. -/
def afterHash (l : List Char) : Option (String × String) :=
  let l1 := match l with
            | c :: rest => if isPySpace c then rest else l
            | [] => l
  if startsWithL l1 "doitlive".data then
    let l2 := l1.drop 8
    let l3 := l2.dropWhile isPySpace
    if l2.length = l3.length then none
    else
      match matchKey l3 with
      | some (k, rest) => (argOf rest).map (fun a => (k, a))
      | none => none
  else none

/-- `OPTION_RE.match(command)`, returning the `option` and `arg` groups. -/
def optionMatch (s : String) : Option (String × String) :=
  match s.data with
  | '#' :: rest => afterHash rest
  | _ => none

/-- Python exceptions that the embedded code can raise. -/
inductive PyError where
  | valueError
  | osError
  | indexError
  | calledProcessError
deriving DecidableEq, Repr

/-- The mutable configuration threaded through `run`
(src/doitlive.py lines 270-300): its parameters plus the alias and
env-var accumulators initialised to `[]`. The typing speed is an `Int`
because `speed = int(arg)` performs no range check. -/
structure Config where
  shell : String
  promptTemplate : String
  speed : Int
  aliases : List String
  envvars : List String
deriving DecidableEq, Repr

/-- `run`'s default parameters: `shell='/bin/bash'`,
`prompt_template='default'`, `speed=1`, empty accumulators. -/
def defaultConfig : Config :=
  { shell := "/bin/bash", promptTemplate := "default", speed := 1,
    aliases := [], envvars := [] }

/-- The effect of one matched directive on the configuration
(the `if option == ...` chain in `run`). A `speed` value that `int`
cannot parse raises `ValueError`. -/
def applyDirective (cfg : Config) (opt arg : String) : Except PyError Config :=
  if opt = "prompt" then .ok { cfg with promptTemplate := arg }
  else if opt = "shell" then .ok { cfg with shell := arg }
  else if opt = "alias" then .ok { cfg with aliases := cfg.aliases ++ [arg] }
  else if opt = "env" then .ok { cfg with envvars := cfg.envvars ++ [arg] }
  else if opt = "speed" then
    match pyInt arg with
    | some n => .ok { cfg with speed := n }
    | none => .error .valueError
  else .ok cfg

/-- One `run_command` invocation as observed at the call site
(`run_command(text, shell, aliases=..., envvars=...)`). -/
structure ExecCall where
  cmd : String
  shell : String
  aliases : List String
  envvars : List String
deriving DecidableEq, Repr

/-- The pure part of `run`'s loop: classify each line (blank, directive,
comment, command) and fold directives into the configuration, recording
the `run_command` invocations that full playback performs. Keystroke
pacing is handled separately by `run` below; this function is the
reference for which commands are executed with which configuration. -/
def processLines (cfg : Config) : List String → List ExecCall × Except PyError Config
  | [] => ([], .ok cfg)
  | line :: rest =>
    let command := pyStrip line
    if command = "" then processLines cfg rest
    else if pyStartsWith command "#" then
      match optionMatch command with
      | none => processLines cfg rest
      | some (opt, arg) =>
        match applyDirective cfg opt arg with
        | .ok cfg' => processLines cfg' rest
        | .error e => ([], .error e)
    else
      let r := processLines cfg rest
      (⟨command, cfg.shell, cfg.aliases, cfg.envvars⟩ :: r.1, r.2)

/-! ## Command executor (run_command, src/doitlive.py lines 200-230) -/

/-- OS-level oracles: `fs target` is the cwd that `os.chdir(target)`
would leave the process in (`none` models the `OSError` on a missing or
inaccessible path), `home` is `$HOME`, `interp` is
`$DOITLIVE_INTERPRETER`, and `exitCode` gives the child exit status of a
generated script (consulted only in test mode). -/
structure Ctx where
  fs : String → Option String
  home : String
  interp : Option String
  exitCode : List String → Int

/-- Python `shell or env.get('DOITLIVE_INTERPRETER') or '/bin/bash'`:
first truthy (non-empty, non-None) value. -/
def resolveShell (interp : Option String) (shell : String) : String :=
  if shell ≠ "" then shell
  else
    match interp with
    | some v => if v ≠ "" then v else "/bin/bash"
    | none => "/bin/bash"

/-- `write_commands(fp, command, args)`: one `command arg` line per arg,
appended to the file buffer. -/
def write_commands (command : String) (args : List String) : String :=
  args.foldl (fun acc a => acc ++ command ++ " " ++ a ++ "\n") ""

/-- The full text written to the temporary interpreter script by
`run_command`'s else-branch, in source write order: shebang, coding
comment, `shopt` when the shell path contains `bash`, exports, aliases,
then the command line. -/
def scriptContent (shell' : String) (envvars aliases : List String) (cmd : String) : String :=
  let fp := "#!" ++ shell' ++ "\n"
  let fp := fp ++ "# -*- coding: utf-8 -*-\n"
  let fp := fp ++ (if pyContains shell' "bash" then "shopt -s expand_aliases\n" else "")
  let fp := fp ++ write_commands "export" envvars
  let fp := fp ++ write_commands "alias" aliases
  fp ++ cmd ++ "\n"

/-- Split a newline-terminated buffer into its lines (no trailing empty
field for the final newline). -/
def splitNlAux : List Char → List Char → List (List Char)
  | [], acc => [acc.reverse]
  | c :: cs, acc =>
    if c = '\n' then acc.reverse :: splitNlAux cs [] else splitNlAux cs (c :: acc)

/-- The lines of a text buffer, dropping the empty field after a final
newline. -/
def linesOf (s : String) : List String :=
  let ps := (splitNlAux s.data []).map String.mk
  if ps.getLast? = some "" then ps.dropLast else ps

/-- A list of lines as one newline-terminated buffer: the reference
layout that the generated interpreter script is compared against. -/
def concatLines (l : List String) : String :=
  l.foldr (fun x acc => x ++ "\n" ++ acc) ""

/-- Observable events of one command execution and of playback. -/
inductive SEv where
  | execCall (c : ExecCall)
  | cdAttempt (target : String)
  | warn (msg : String)
  | scriptCreate (lines : List String)
  | scriptExec (shell : String)
  | scriptRemove
deriving DecidableEq, Repr

/-- `run_command(cmd, shell, aliases, envvars, test_mode)`: the `cd `
special case changes the process directory (warning and unchanged cwd on
`OSError`); any other command materialises a temporary interpreter
script, executes it, and — by the `with NamedTemporaryFile` block —
removes it on every exit path, including the `CalledProcessError` raised
in test mode on a non-zero exit status. Returns the events, the new
cwd, and the Python-level result. -/
def run_command (ctx : Ctx) (cwd : String) (cmd shell : String)
    (aliases envvars : List String) (testMode : Bool) :
    List SEv × String × Except PyError Unit :=
  let shell' := resolveShell ctx.interp shell
  if pyStartsWith cmd "cd " then
    match (pySplit cmd).get? 1 with
    | none => ([], cwd, .error .indexError)
    | some dir =>
      let target := expanduser ctx.home dir
      match ctx.fs target with
      | some c' => ([.cdAttempt target], c', .ok ())
      | none =>
        ([.cdAttempt target, .warn ("No such file or directory: " ++ dir)],
         cwd, .ok ())
  else
    let lines := linesOf (scriptContent shell' envvars aliases cmd)
    let body : List SEv × Except PyError Unit :=
      if testMode && ctx.exitCode lines ≠ 0 then
        ([.scriptCreate lines, .scriptExec shell'], .error .calledProcessError)
      else
        ([.scriptCreate lines, .scriptExec shell'], .ok ())
    (body.1 ++ [.scriptRemove], cwd, body.2)

/-! ## Typing simulator (magictype / wait_for, src/doitlive.py lines 232-258) -/

/-- The escape keystroke. -/
def ESC : Char := '\x1b'

/-- Membership in `RETURNS = {'\r', '\n'}`. -/
def isReturn (c : Char) : Bool := c = '\r' || c = '\n'

/-- Python list slicing `l[a:b]` with arbitrary integer bounds:
negative indices count from the end, both bounds clamp to `[0, len]`. -/
def pySlice (l : List Char) (a b : Int) : List Char :=
  let n := l.length
  let start := (min (if a < 0 then (n : Int) + a else a) (n : Int)).toNat
  let stop := (min (if b < 0 then (n : Int) + b else b) (n : Int)).toNat
  (l.take stop).drop start

/-- Result of `magictype`'s character-revealing `while` loop. `starved`
means the key stream ran out while the loop still wanted a keystroke
(the real program would block in `getchar`). -/
inductive TypeRes where
  | aborted (emitted : List Char)
  | starved (emitted : List Char)
  | typed (emitted : List Char) (rest : List Char)
deriving DecidableEq, Repr

/-- The `while i < len(text)` loop of `magictype`: read one keystroke;
escape aborts; any other key reveals `text[i:i+speed]` and advances `i`
by `speed`. `emitted` accumulates the echoed characters. -/
def typeLoop (text : List Char) (speed : Int) (i : Int) (emitted : List Char) :
    List Char → TypeRes
  | [] =>
    if i < (text.length : Int) then .starved emitted else .typed emitted []
  | k :: ks =>
    if i < (text.length : Int) then
      if k = ESC then .aborted emitted
      else typeLoop text speed (i + speed) (emitted ++ pySlice text i (i + speed)) ks
    else .typed emitted (k :: ks)

/-- Result of `wait_for`. -/
inductive WaitRes where
  | aborted
  | starved
  | got (c : Char) (rest : List Char)
deriving DecidableEq, Repr

/-- `wait_for(chars)`: keep reading keystrokes until escape (abort) or a
character in `chars` (return it); every other key is ignored. -/
def wait_for (accept : Char → Bool) : List Char → WaitRes
  | [] => .starved
  | k :: ks =>
    if k = ESC then .aborted
    else if accept k then .got k ks
    else wait_for accept ks

/-- Outcome of `magictype`'s keystroke-driven part, before `run_command`. -/
inductive ConfirmRes where
  | aborted
  | starved
  | confirmed (rest : List Char)
deriving DecidableEq, Repr

/-- `magictype` up to and including `wait_for(RETURNS)`: reveal the whole
text keystroke by keystroke, then wait for a return. Only on
`confirmed` does `magictype` go on to call `run_command`. -/
def typeConfirm (text : String) (speed : Int) (keys : List Char) : ConfirmRes :=
  match typeLoop text.data speed 0 [] keys with
  | .aborted _ => .aborted
  | .starved _ => .starved
  | .typed _ rest =>
    match wait_for isReturn rest with
    | .aborted => .aborted
    | .starved => .starved
    | .got _ rest' => .confirmed rest'

/-- Result of one `magictype` call inside the player loop. -/
inductive StepRes where
  | ok (evs : List SEv) (cwd : String) (rest : List Char)
  | aborted
  | starved
  | fatal (evs : List SEv) (e : PyError)
deriving DecidableEq, Repr

/-- `magictype(text, shell, ..., speed, test_mode)`: type the command
under keystroke pacing, wait for a return, then hand the text to
`run_command` with the current shell/aliases/envvars. -/
def magictype (ctx : Ctx) (cwd : String) (text shell : String)
    (aliases envvars : List String) (speed : Int) (testMode : Bool)
    (keys : List Char) : StepRes :=
  match typeConfirm text speed keys with
  | .aborted => .aborted
  | .starved => .starved
  | .confirmed rest =>
    let call : ExecCall := ⟨text, shell, aliases, envvars⟩
    let r := run_command ctx cwd text shell aliases envvars testMode
    match r.2.2 with
    | .ok _ => .ok (.execCall call :: r.1) r.2.1 rest
    | .error e => .fatal (.execCall call :: r.1) e

/-- How a playback session ended. -/
inductive Outcome where
  | finished
  | abortedDuring (cmd : String)
  | abortedFinal
  | starved
  | fatal (e : PyError)
deriving DecidableEq, Repr

/-- Result of a whole playback session. -/
structure SessionOut where
  events : List SEv
  outcome : Outcome
  cwd : String
deriving Repr

/-- The player `run(commands, shell, prompt_template, speed, test_mode)`:
process each line in order (blank lines skipped, directive lines folded
into the configuration, commands typed and executed), then show the
final prompt and wait for one more return. -/
def run (ctx : Ctx) (cfg : Config) (cwd : String) (testMode : Bool) :
    List String → List Char → SessionOut
  | [], keys =>
    match wait_for isReturn keys with
    | .got _ _ => ⟨[], .finished, cwd⟩
    | .aborted => ⟨[], .abortedFinal, cwd⟩
    | .starved => ⟨[], .starved, cwd⟩
  | line :: rest, keys =>
    let command := pyStrip line
    if command = "" then run ctx cfg cwd testMode rest keys
    else if pyStartsWith command "#" then
      match optionMatch command with
      | none => run ctx cfg cwd testMode rest keys
      | some (opt, arg) =>
        match applyDirective cfg opt arg with
        | .ok cfg' => run ctx cfg' cwd testMode rest keys
        | .error e => ⟨[], .fatal e, cwd⟩
    else
      match magictype ctx cwd command cfg.shell cfg.aliases cfg.envvars
          cfg.speed testMode keys with
      | .ok evs cwd' rest' =>
        let r := run ctx cfg cwd' testMode rest rest'
        ⟨evs ++ r.events, r.outcome, r.cwd⟩
      | .aborted => ⟨[], .abortedDuring command, cwd⟩
      | .starved => ⟨[], .starved, cwd⟩
      | .fatal evs e => ⟨evs, .fatal e, cwd⟩

/-- The `run_command` invocations recorded in an event trace, in order. -/
def execCallsOf (evs : List SEv) : List ExecCall :=
  evs.filterMap (fun e => match e with | .execCall c => some c | _ => none)

/-! ## Recorder (src/doitlive.py lines 409-499) -/

/-- `HEADER_TEMPLATE.format(shell=..., prompt=...)`. -/
def headerTemplate (shell p : String) : String :=
  "# Recorded with the doitlive recorder\n#doitlive shell: " ++ shell ++
    "\n#doitlive prompt: " ++ p ++ "\n"

/-- `write_directives(fp, directive, args)`. -/
def write_directives (directive : String) (args : List String) : String :=
  args.foldl (fun acc a => acc ++ "#doitlive " ++ directive ++ ": " ++ a ++ "\n") ""

/-- Join with a separator (Python `sep.join(parts)`). -/
def joinSep (sep : String) : List String → String
  | [] => ""
  | [x] => x
  | x :: y :: rest => x ++ sep ++ joinSep sep (y :: rest)

/-- The script file written by `record` after the loop stops: header
directives, alias and env directive lines, a blank line, the buffered
commands separated by blank lines, and a trailing newline. -/
def recordSerialize (shell p : String) (aliases envvars commands : List String) : String :=
  headerTemplate shell p ++ write_directives "alias" aliases ++
    write_directives "env" envvars ++ "\n" ++ joinSep "\n\n" commands ++ "\n"

/-- `run_recorder`'s loop over a stream of operator input lines:
`stop` ends the loop, `P` previews, `U` pops the last entry after a
confirmation (read from `confirms`); anything else is appended to the
buffer and executed. Returns `none` when the input stream runs out
without a `stop` (the real loop would block reading the prompt). -/
def run_recorder (commands : List String) (confirms : List Bool) :
    List String → Option (List String)
  | [] => none
  | input :: rest =>
    let command := pyStrip input
    if command = "stop" then some commands
    else if command = "P" then run_recorder commands confirms rest
    else if command = "U" then
      if !commands.isEmpty && confirms.headD false then
        run_recorder commands.dropLast confirms.tail rest
      else run_recorder commands (if commands.isEmpty then confirms else confirms.tail) rest
    else run_recorder (commands ++ [command]) confirms rest

/-- `file.readlines()`: split after each newline, keeping the newline
characters. -/
def readlinesAux : List Char → List Char → List (List Char)
  | [], acc => if acc.isEmpty then [] else [acc.reverse]
  | c :: cs, acc =>
    if c = '\n' then (acc.reverse ++ ['\n']) :: readlinesAux cs []
    else readlinesAux cs (c :: acc)

/-- `file.readlines()` on a string buffer. -/
def readlines (s : String) : List String :=
  (readlinesAux s.data []).map String.mk

/-! ## Git branch lookup (get_current_git_branch, src/doitlive.py lines 142-150) -/

/-- Possible outcomes of spawning `git symbolic-ref --short -q HEAD`:
the process runs and produces stdout (whatever its exit status —
`Popen`/`communicate` never inspect it), or spawning itself fails
because the executable is unavailable (Python raises `OSError`). -/
inductive SpawnOutcome where
  | runs (stdout : String)
  | spawnError
deriving DecidableEq, Repr

/-- `get_current_git_branch`: return the stripped stdout of the git
call. The surrounding `try` only catches `subprocess.CalledProcessError`,
an exception `Popen`/`communicate` never raise, so a failed spawn
(`OSError`) escapes the function. -/
def get_current_git_branch (g : SpawnOutcome) : Except PyError String :=
  match g with
  | .runs out => .ok (pyStrip out)
  | .spawnError => .error .osError

/-- The directive arguments for one option key, in file order: the
reference extraction that `processLines`' accumulators are compared
against. -/
def directiveArgs (key : String) (lines : List String) : List String :=
  lines.filterMap (fun l =>
    match optionMatch (pyStrip l) with
    | some (k, a) => if k = key then some a else none
    | none => none)

/-! ## Step lemmas for the line processors -/

theorem optionMatch_some_hash {s : String} {p : String × String}
    (h : optionMatch s = some p) : pyStartsWith s "#" = true ∧ s ≠ "" := by
  unfold optionMatch at h
  split at h
  · next c rest heq =>
    refine ⟨?_, ?_⟩
    · unfold pyStartsWith
      rw [heq]
      simp [startsWithL]
    · intro he
      rw [he] at heq
      simp [String.data] at heq
  · exact absurd h (by simp)

theorem processLines_blank {cfg : Config} {l : String} {rest : List String}
    (h : pyStrip l = "") :
    processLines cfg (l :: rest) = processLines cfg rest := by
  simp only [processLines]
  simp [h]

theorem processLines_comment {cfg : Config} {l : String} {rest : List String}
    (h1 : pyStrip l ≠ "") (h2 : pyStartsWith (pyStrip l) "#" = true)
    (h3 : optionMatch (pyStrip l) = none) :
    processLines cfg (l :: rest) = processLines cfg rest := by
  simp only [processLines]
  simp [h1, h2, h3]

theorem processLines_directive {cfg cfg' : Config} {l : String} {rest : List String}
    {opt arg : String}
    (h3 : optionMatch (pyStrip l) = some (opt, arg))
    (h4 : applyDirective cfg opt arg = .ok cfg') :
    processLines cfg (l :: rest) = processLines cfg' rest := by
  obtain ⟨h2, h1⟩ := optionMatch_some_hash h3
  simp only [processLines]
  simp [h1, h2, h3, h4]

theorem processLines_directive_err {cfg : Config} {l : String} {rest : List String}
    {opt arg : String} {e : PyError}
    (h3 : optionMatch (pyStrip l) = some (opt, arg))
    (h4 : applyDirective cfg opt arg = .error e) :
    processLines cfg (l :: rest) = ([], .error e) := by
  obtain ⟨h2, h1⟩ := optionMatch_some_hash h3
  simp only [processLines]
  simp [h1, h2, h3, h4]

theorem processLines_cmd {cfg : Config} {l : String} {rest : List String}
    (h1 : pyStrip l ≠ "") (h2 : pyStartsWith (pyStrip l) "#" = false) :
    processLines cfg (l :: rest) =
      (⟨pyStrip l, cfg.shell, cfg.aliases, cfg.envvars⟩ :: (processLines cfg rest).1,
       (processLines cfg rest).2) := by
  simp only [processLines]
  simp [h1, h2]

theorem run_blank {ctx : Ctx} {cfg : Config} {cwd : String} {tm : Bool}
    {l : String} {rest : List String} {keys : List Char}
    (h : pyStrip l = "") :
    run ctx cfg cwd tm (l :: rest) keys = run ctx cfg cwd tm rest keys := by
  simp only [run]
  simp [h]

theorem run_comment {ctx : Ctx} {cfg : Config} {cwd : String} {tm : Bool}
    {l : String} {rest : List String} {keys : List Char}
    (h1 : pyStrip l ≠ "") (h2 : pyStartsWith (pyStrip l) "#" = true)
    (h3 : optionMatch (pyStrip l) = none) :
    run ctx cfg cwd tm (l :: rest) keys = run ctx cfg cwd tm rest keys := by
  simp only [run]
  simp [h1, h2, h3]

theorem run_directive {ctx : Ctx} {cfg cfg' : Config} {cwd : String} {tm : Bool}
    {l : String} {rest : List String} {keys : List Char} {opt arg : String}
    (h3 : optionMatch (pyStrip l) = some (opt, arg))
    (h4 : applyDirective cfg opt arg = .ok cfg') :
    run ctx cfg cwd tm (l :: rest) keys = run ctx cfg' cwd tm rest keys := by
  obtain ⟨h2, h1⟩ := optionMatch_some_hash h3
  simp only [run]
  simp [h1, h2, h3, h4]

theorem run_directive_err {ctx : Ctx} {cfg : Config} {cwd : String} {tm : Bool}
    {l : String} {rest : List String} {keys : List Char} {opt arg : String}
    {e : PyError}
    (h3 : optionMatch (pyStrip l) = some (opt, arg))
    (h4 : applyDirective cfg opt arg = .error e) :
    run ctx cfg cwd tm (l :: rest) keys = ⟨[], .fatal e, cwd⟩ := by
  obtain ⟨h2, h1⟩ := optionMatch_some_hash h3
  simp only [run]
  simp [h1, h2, h3, h4]

theorem run_on_command {ctx : Ctx} {cfg : Config} {cwd : String} {tm : Bool}
    {l : String} {rest : List String} {keys : List Char}
    (h1 : pyStrip l ≠ "") (h2 : pyStartsWith (pyStrip l) "#" = false) :
    run ctx cfg cwd tm (l :: rest) keys =
      match magictype ctx cwd (pyStrip l) cfg.shell cfg.aliases cfg.envvars
          cfg.speed tm keys with
      | .ok evs cwd' rest' =>
        let r := run ctx cfg cwd' tm rest rest'
        ⟨evs ++ r.events, r.outcome, r.cwd⟩
      | .aborted => ⟨[], .abortedDuring (pyStrip l), cwd⟩
      | .starved => ⟨[], .starved, cwd⟩
      | .fatal evs e => ⟨evs, .fatal e, cwd⟩ := by
  simp only [run]
  simp [h1, h2]

/-! ## Typing-loop lemmas -/

theorem pySlice_chunk (l : List Char) (j sz : Nat) :
    pySlice l (j : Int) ((j : Int) + (sz : Int)) = (l.drop j).take sz := by
  have h1 : ¬((j : Int) < 0) := by omega
  have h2 : ¬((j : Int) + (sz : Int) < 0) := by omega
  have e2 : (min ((j : Int)) ((l.length : Int))).toNat = min j l.length := by omega
  have e1 : (min ((j : Int) + (sz : Int)) ((l.length : Int))).toNat = min (j + sz) l.length := by
    omega
  simp only [pySlice, h1, h2, if_false, e1, e2]
  rw [List.drop_take]
  rcases le_or_lt j l.length with hj | hj
  · rw [min_eq_left hj]
    apply List.take_eq_take.mpr
    rw [List.length_drop]
    omega
  · have hm : min j l.length = l.length := by omega
    rw [hm]
    simp [List.drop_length, List.drop_eq_nil_of_le hj.le]

theorem chunk_glue (l : List Char) (j sz : Nat) :
    (l.drop j).take sz ++ l.drop (j + sz) = l.drop j := by
  have h : l.drop (j + sz) = (l.drop j).drop sz := by
    rw [List.drop_drop, Nat.add_comm]
  rw [h, List.take_append_drop]

theorem ceil_pos (m n : Nat) (hm : 0 < m) (hn : 1 ≤ n) : 1 ≤ (m + n - 1) / n :=
  (Nat.one_le_div_iff (by omega)).mpr (by omega)

theorem ceil_zero (n : Nat) (hn : 1 ≤ n) : (0 + n - 1) / n = 0 :=
  Nat.div_eq_of_lt (by omega)

theorem ceil_step (m n : Nat) (hm : 0 < m) (hn : 1 ≤ n) :
    (m + n - 1) / n = (m - n + n - 1) / n + 1 := by
  rcases le_or_lt m n with h | h
  · have h0 : m - n = 0 := by omega
    have e1 : (m + n - 1) / n = 1 := by
      have e : m + n - 1 = (m - 1) + n := by omega
      rw [e, Nat.add_div_right _ (by omega), Nat.div_eq_of_lt (by omega)]
    have e2 : (m - n + n - 1) / n = 0 := by
      rw [h0]
      exact Nat.div_eq_of_lt (by omega)
    omega
  · have e1 : m + n - 1 = (m - n + n - 1) + n := by omega
    rw [e1, Nat.add_div_right _ (by omega)]

/-- Full characterisation of the typing loop on escape-free key streams:
with `c = ceil((len - j)/n)` keystrokes still needed, the loop finishes
(consuming exactly `c` keys and revealing the rest of the text) iff at
least `c` keys are available; otherwise every available key reveals the
next `n` characters and the loop starves. -/
theorem typeLoop_noesc (text : List Char) (n : Nat) (hn : 1 ≤ n) :
    ∀ (keys : List Char), (∀ k ∈ keys, k ≠ ESC) → ∀ (j : Nat) (acc : List Char),
      typeLoop text (n : Int) (j : Int) acc keys =
        if (text.length - j + n - 1) / n ≤ keys.length then
          TypeRes.typed (acc ++ text.drop j) (keys.drop ((text.length - j + n - 1) / n))
        else TypeRes.starved (acc ++ (text.drop j).take (keys.length * n)) := by
  intro keys
  induction keys with
  | nil =>
    intro _ j acc
    simp only [typeLoop]
    rcases le_or_lt text.length j with hj | hj
    · have hlt : ¬((j : Int) < (text.length : Int)) := by omega
      have hz : text.length - j = 0 := by omega
      have hc0 : (0 + n - 1) / n = 0 := ceil_zero n hn
      rw [if_neg hlt, hz, if_pos (by rw [hc0]; exact Nat.zero_le _), hc0]
      simp [List.drop_eq_nil_of_le hj]
    · have hlt : ((j : Int) < (text.length : Int)) := by omega
      have h1 : 1 ≤ (text.length - j + n - 1) / n := ceil_pos _ n (by omega) hn
      rw [if_pos hlt, if_neg (by simp only [List.length_nil]; omega)]
      simp
  | cons k ks ih =>
    intro hesc j acc
    have hkesc : k ≠ ESC := hesc k (List.mem_cons_self k ks)
    have hks : ∀ x ∈ ks, x ≠ ESC := fun x hx => hesc x (List.mem_cons_of_mem _ hx)
    simp only [typeLoop]
    rcases le_or_lt text.length j with hj | hj
    · have hlt : ¬((j : Int) < (text.length : Int)) := by omega
      have hz : text.length - j = 0 := by omega
      have hc0 : (0 + n - 1) / n = 0 := ceil_zero n hn
      rw [if_neg hlt, hz, if_pos (by rw [hc0]; exact Nat.zero_le _), hc0]
      simp [List.drop_eq_nil_of_le hj]
    · have hlt : ((j : Int) < (text.length : Int)) := by omega
      rw [if_pos hlt, if_neg hkesc]
      have hcast : (j : Int) + (n : Int) = ((j + n : Nat) : Int) := by push_cast; ring
      rw [pySlice_chunk, hcast, ih hks (j + n) (acc ++ (text.drop j).take n)]
      have hm : 0 < text.length - j := by omega
      have hstep : (text.length - j + n - 1) / n = (text.length - (j + n) + n - 1) / n + 1 := by
        have h := ceil_step (text.length - j) n hm hn
        have e : text.length - j - n = text.length - (j + n) := by omega
        rw [e] at h
        exact h
      by_cases hc : (text.length - (j + n) + n - 1) / n ≤ ks.length
      · rw [if_pos hc, if_pos (by rw [hstep]; simp only [List.length_cons]; omega), hstep]
        rw [List.append_assoc, chunk_glue, List.drop_succ_cons]
      · rw [if_neg hc, if_neg (by rw [hstep]; simp only [List.length_cons]; omega)]
        rw [List.append_assoc]
        have e1 : (k :: ks).length * n = n + ks.length * n := by
          simp only [List.length_cons]
          ring
        rw [e1, List.take_add]
        have e2 : (text.drop j).drop n = text.drop (j + n) := by
          rw [List.drop_drop, Nat.add_comm]
        rw [e2]

/-- If the typing loop finished, the whole remaining text was revealed
and only non-escape keys were consumed. -/
theorem typeLoop_typed_inv (text : List Char) (n : Nat) :
    ∀ (keys : List Char) (j : Nat) (acc e rest : List Char),
      typeLoop text (n : Int) (j : Int) acc keys = .typed e rest →
      e = acc ++ text.drop j ∧ ∃ used, keys = used ++ rest ∧ ∀ k ∈ used, k ≠ ESC := by
  intro keys
  induction keys with
  | nil =>
    intro j acc e rest h
    simp only [typeLoop] at h
    rcases le_or_lt text.length j with hj | hj
    · rw [if_neg (by omega : ¬((j : Int) < (text.length : Int)))] at h
      obtain ⟨he, hr⟩ : acc = e ∧ ([] : List Char) = rest := by
        constructor <;> [exact (TypeRes.typed.injEq ..).mp h |>.1;
          exact (TypeRes.typed.injEq ..).mp h |>.2]
      subst he
      subst hr
      exact ⟨by simp [List.drop_eq_nil_of_le hj], [], rfl, by simp⟩
    · rw [if_pos (by omega : ((j : Int) < (text.length : Int)))] at h
      simp at h
  | cons k ks ih =>
    intro j acc e rest h
    simp only [typeLoop] at h
    rcases le_or_lt text.length j with hj | hj
    · rw [if_neg (by omega : ¬((j : Int) < (text.length : Int)))] at h
      obtain ⟨he, hr⟩ := (TypeRes.typed.injEq ..).mp h
      subst he
      subst hr
      exact ⟨by simp [List.drop_eq_nil_of_le hj], [], rfl, by simp⟩
    · rw [if_pos (by omega : ((j : Int) < (text.length : Int)))] at h
      by_cases hk : k = ESC
      · rw [if_pos hk] at h
        simp at h
      · rw [if_neg hk] at h
        have hcast : (j : Int) + (n : Int) = ((j + n : Nat) : Int) := by push_cast; ring
        rw [pySlice_chunk, hcast] at h
        obtain ⟨he, used, hu, hesc⟩ := ih (j + n) _ e rest h
        refine ⟨?_, k :: used, by simp [hu], ?_⟩
        · rw [he, List.append_assoc, chunk_glue]
        · intro x hx
          rcases List.mem_cons.mp hx with h1 | h1
          · subst h1
            exact hk
          · exact hesc x h1

theorem wait_for_starved (accept : Char → Bool) :
    ∀ keys, (∀ k ∈ keys, k ≠ ESC ∧ accept k = false) →
      wait_for accept keys = .starved := by
  intro keys
  induction keys with
  | nil => intro _; rfl
  | cons k ks ih =>
    intro h
    obtain ⟨h1, h2⟩ := h k (List.mem_cons_self k ks)
    simp only [wait_for]
    rw [if_neg h1, if_neg (by simp [h2])]
    exact ih fun x hx => h x (List.mem_cons_of_mem _ hx)

theorem wait_for_got_inv (accept : Char → Bool) :
    ∀ keys c rest, wait_for accept keys = .got c rest →
      ∃ skipped, keys = skipped ++ c :: rest ∧
        (∀ x ∈ skipped, x ≠ ESC ∧ accept x = false) ∧ accept c = true ∧ c ≠ ESC := by
  intro keys
  induction keys with
  | nil =>
    intro c rest h
    simp [wait_for] at h
  | cons k ks ih =>
    intro c rest h
    simp only [wait_for] at h
    by_cases h1 : k = ESC
    · rw [if_pos h1] at h
      simp at h
    · rw [if_neg h1] at h
      by_cases h2 : accept k = true
      · rw [if_pos h2] at h
        obtain ⟨hk, hr⟩ : k = c ∧ ks = rest := by simpa using h
        subst hk
        subst hr
        exact ⟨[], rfl, by simp, h2, h1⟩
      · rw [if_neg h2] at h
        obtain ⟨skipped, he, hs, ha, hc⟩ := ih c rest h
        refine ⟨k :: skipped, by simp [he], ?_, ha, hc⟩
        intro x hx
        rcases List.mem_cons.mp hx with hx1 | hx1
        · subst hx1
          exact ⟨h1, by simpa using h2⟩
        · exact hs x hx1

/-! ## Executor and player lemmas -/

/-- `run_command` itself records no `execCall` event (those are recorded
at its call sites), so a trace's `execCall`s are exactly the commands
handed to the executor. -/
theorem run_command_no_exec (ctx : Ctx) (cwd cmd shell : String)
    (aliases envvars : List String) (tm : Bool) :
    execCallsOf (run_command ctx cwd cmd shell aliases envvars tm).1 = [] := by
  unfold run_command
  dsimp only
  split
  · split
    · rfl
    · split
      · rfl
      · rfl
  · split
    · rfl
    · rfl

theorem magictype_ok_inv {ctx : Ctx} {cwd text shell : String}
    {aliases envvars : List String} {speed : Int} {tm : Bool} {keys : List Char}
    {evs : List SEv} {cwd' : String} {rest' : List Char}
    (h : magictype ctx cwd text shell aliases envvars speed tm keys = .ok evs cwd' rest') :
    typeConfirm text speed keys = .confirmed rest' ∧
    evs = .execCall ⟨text, shell, aliases, envvars⟩ ::
      (run_command ctx cwd text shell aliases envvars tm).1 ∧
    cwd' = (run_command ctx cwd text shell aliases envvars tm).2.1 := by
  unfold magictype at h
  split at h
  · simp at h
  · simp at h
  · next rest hconf =>
    dsimp only at h
    split at h
    · obtain ⟨he, hc, hr⟩ := (StepRes.ok.injEq ..).mp h
      subst hr
      exact ⟨hconf, he.symm, hc.symm⟩
    · simp at h

theorem magictype_aborted_inv {ctx : Ctx} {cwd text shell : String}
    {aliases envvars : List String} {speed : Int} {tm : Bool} {keys : List Char}
    (h : magictype ctx cwd text shell aliases envvars speed tm keys = .aborted) :
    typeConfirm text speed keys = .aborted := by
  unfold magictype at h
  split at h
  · next hc => exact hc
  · simp at h
  · dsimp only at h
    split at h
    · simp at h
    · simp at h

/-- Playback that aborts mid-command has executed exactly the commands
confirmed before the aborted one: the executed calls are an initial
segment of the full-playback call list, shorter than it, and the command
right after that segment is the one whose typing was aborted. -/
theorem run_aborted_inseg (ctx : Ctx) (tm : Bool) :
    ∀ (lines : List String) (cfg : Config) (cwd : String) (keys : List Char) (c : String),
      (run ctx cfg cwd tm lines keys).outcome = .abortedDuring c →
      execCallsOf (run ctx cfg cwd tm lines keys).events =
        (processLines cfg lines).1.take
          (execCallsOf (run ctx cfg cwd tm lines keys).events).length ∧
      (execCallsOf (run ctx cfg cwd tm lines keys).events).length <
        (processLines cfg lines).1.length ∧
      ((processLines cfg lines).1[(execCallsOf
          (run ctx cfg cwd tm lines keys).events).length]?).map ExecCall.cmd = some c := by
  intro lines
  induction lines with
  | nil =>
    intro cfg cwd keys c h
    simp only [run] at h
    rcases hw : wait_for isReturn keys with _ | _ | ⟨k, r⟩ <;> rw [hw] at h <;> simp at h
  | cons line rest ih =>
    intro cfg cwd keys c h
    by_cases h1 : pyStrip line = ""
    · rw [run_blank h1] at h ⊢
      rw [processLines_blank h1]
      exact ih cfg cwd keys c h
    · by_cases h2 : pyStartsWith (pyStrip line) "#" = true
      · rcases h3 : optionMatch (pyStrip line) with _ | ⟨opt, arg⟩
        · rw [run_comment h1 h2 h3] at h ⊢
          rw [processLines_comment h1 h2 h3]
          exact ih cfg cwd keys c h
        · rcases h4 : applyDirective cfg opt arg with e | cfg'
          · rw [run_directive_err h3 h4] at h
            simp at h
          · rw [run_directive h3 h4] at h ⊢
            rw [processLines_directive h3 h4]
            exact ih cfg' cwd keys c h
      · have h2' : pyStartsWith (pyStrip line) "#" = false := by simpa using h2
        rw [run_on_command h1 h2'] at h ⊢
        rw [processLines_cmd h1 h2']
        revert h
        cases hstep : magictype ctx cwd (pyStrip line) cfg.shell cfg.aliases
            cfg.envvars cfg.speed tm keys with
        | ok evs cwd' rest' =>
          intro h
          dsimp only at h ⊢
          obtain ⟨_, hevs, _⟩ := magictype_ok_inv hstep
          obtain ⟨hex, hlt, hget⟩ := ih cfg cwd' rest' c h
          rw [hevs]
          have hsplit : execCallsOf ((SEv.execCall
              ⟨pyStrip line, cfg.shell, cfg.aliases, cfg.envvars⟩ ::
              (run_command ctx cwd (pyStrip line) cfg.shell cfg.aliases cfg.envvars tm).1) ++
              (run ctx cfg cwd' tm rest rest').events) =
              ⟨pyStrip line, cfg.shell, cfg.aliases, cfg.envvars⟩ ::
                execCallsOf (run ctx cfg cwd' tm rest rest').events := by
            unfold execCallsOf
            rw [List.filterMap_append, List.filterMap_cons]
            have hrc := run_command_no_exec ctx cwd (pyStrip line) cfg.shell
              cfg.aliases cfg.envvars tm
            unfold execCallsOf at hrc
            rw [hrc]
            rfl
          rw [hsplit]
          refine ⟨?_, ?_, ?_⟩
          · simp only [List.length_cons, List.take_succ_cons]
            rw [← hex]
          · simp only [List.length_cons]
            omega
          · simp only [List.length_cons, List.getElem?_cons_succ]
            exact hget
        | aborted =>
          intro h
          dsimp only at h ⊢
          have hc : c = pyStrip line := by
            obtain h' := (Outcome.abortedDuring.injEq ..).mp h
            exact h'.symm
          subst hc
          refine ⟨rfl, ?_, ?_⟩
          · simp [execCallsOf]
          · simp [execCallsOf]
        | starved =>
          intro h
          simp at h
        | fatal evs e =>
          intro h
          simp at h

/-! ## Directive-folding lemmas -/

theorem matchKey_keys {l : List Char} {k : String} {r : List Char}
    (h : matchKey l = some (k, r)) :
    k = "prompt" ∨ k = "shell" ∨ k = "alias" ∨ k = "env" ∨ k = "speed" := by
  unfold matchKey at h
  split_ifs at h <;> simp_all

theorem optionMatch_keys {s : String} {opt arg : String}
    (h : optionMatch s = some (opt, arg)) :
    opt = "prompt" ∨ opt = "shell" ∨ opt = "alias" ∨ opt = "env" ∨ opt = "speed" := by
  unfold optionMatch at h
  split at h
  · unfold afterHash at h
    dsimp only at h
    split_ifs at h
    · split at h
      · next k rest2 hmk =>
        obtain ⟨a, _, heq⟩ := Option.map_eq_some'.mp h
        obtain ⟨hk, _⟩ := (Prod.mk.injEq ..).mp heq
        rw [← hk]
        exact matchKey_keys hmk
      · simp at h
  · simp at h

theorem directiveArgs_cons_none {key l : String} {rest : List String}
    (h : optionMatch (pyStrip l) = none) :
    directiveArgs key (l :: rest) = directiveArgs key rest := by
  unfold directiveArgs
  rw [List.filterMap_cons]
  simp [h]

theorem directiveArgs_cons_eq {key l arg : String} {rest : List String}
    (h : optionMatch (pyStrip l) = some (key, arg)) :
    directiveArgs key (l :: rest) = arg :: directiveArgs key rest := by
  unfold directiveArgs
  rw [List.filterMap_cons]
  simp [h]

theorem directiveArgs_cons_ne {key opt l arg : String} {rest : List String}
    (h : optionMatch (pyStrip l) = some (opt, arg)) (hk : opt ≠ key) :
    directiveArgs key (l :: rest) = directiveArgs key rest := by
  unfold directiveArgs
  rw [List.filterMap_cons]
  simp [h, hk]

theorem getLast?_cons_getD {α : Type} (a x : α) (L : List α) :
    ((a :: L).getLast?).getD x = (L.getLast?).getD a := by
  cases L with
  | nil => rfl
  | cons b M =>
    rw [List.getLast?_cons_cons]
    have h : ∃ y, (b :: M).getLast? = some y := by
      cases hg : (b :: M).getLast? with
      | some y => exact ⟨y, rfl⟩
      | none => exact absurd hg (by simp)
    obtain ⟨y, hy⟩ := h
    rw [hy]
    rfl

theorem applyDirective_prompt {cfg cfg' : Config} {arg : String}
    (h : applyDirective cfg "prompt" arg = .ok cfg') :
    cfg' = { cfg with promptTemplate := arg } := by
  unfold applyDirective at h
  simp at h
  exact h.symm

theorem applyDirective_shell {cfg cfg' : Config} {arg : String}
    (h : applyDirective cfg "shell" arg = .ok cfg') :
    cfg' = { cfg with shell := arg } := by
  unfold applyDirective at h
  simp at h
  exact h.symm

theorem applyDirective_alias {cfg cfg' : Config} {arg : String}
    (h : applyDirective cfg "alias" arg = .ok cfg') :
    cfg' = { cfg with aliases := cfg.aliases ++ [arg] } := by
  unfold applyDirective at h
  simp at h
  exact h.symm

theorem applyDirective_env {cfg cfg' : Config} {arg : String}
    (h : applyDirective cfg "env" arg = .ok cfg') :
    cfg' = { cfg with envvars := cfg.envvars ++ [arg] } := by
  unfold applyDirective at h
  simp at h
  exact h.symm

theorem applyDirective_speed {cfg cfg' : Config} {arg : String}
    (h : applyDirective cfg "speed" arg = .ok cfg') :
    ∃ m, pyInt arg = some m ∧ cfg' = { cfg with speed := m } := by
  unfold applyDirective at h
  simp at h
  split at h
  · next m hm =>
    exact ⟨m, hm, by simpa using h.symm⟩
  · simp at h

/-- What a successful directive fold does to the configuration: aliases
and env vars accumulate in file order, the prompt, shell and speed are
last-write-wins (the speed through `int` parsing). -/
theorem processLines_spec :
    ∀ (lines : List String) (cfg cfg' : Config) (calls : List ExecCall),
      processLines cfg lines = (calls, .ok cfg') →
      cfg'.aliases = cfg.aliases ++ directiveArgs "alias" lines ∧
      cfg'.envvars = cfg.envvars ++ directiveArgs "env" lines ∧
      cfg'.promptTemplate =
        ((directiveArgs "prompt" lines).getLast?).getD cfg.promptTemplate ∧
      cfg'.shell = ((directiveArgs "shell" lines).getLast?).getD cfg.shell ∧
      cfg'.speed =
        (((directiveArgs "speed" lines).filterMap pyInt).getLast?).getD cfg.speed := by
  intro lines
  induction lines with
  | nil =>
    intro cfg cfg' calls h
    simp only [processLines] at h
    obtain ⟨_, ho⟩ := (Prod.mk.injEq ..).mp h
    have hcfg : cfg = cfg' := by simpa using ho
    subst hcfg
    simp [directiveArgs]
  | cons line rest ih =>
    intro cfg cfg' calls h
    by_cases h1 : pyStrip line = ""
    · rw [processLines_blank h1] at h
      have hopt : optionMatch (pyStrip line) = none := by rw [h1]; rfl
      simp only [directiveArgs_cons_none hopt]
      exact ih cfg cfg' calls h
    · by_cases h2 : pyStartsWith (pyStrip line) "#" = true
      · rcases h3 : optionMatch (pyStrip line) with _ | ⟨opt, arg⟩
        · rw [processLines_comment h1 h2 h3] at h
          simp only [directiveArgs_cons_none h3]
          exact ih cfg cfg' calls h
        · rcases h4 : applyDirective cfg opt arg with e | cfgm
          · rw [processLines_directive_err h3 h4] at h
            obtain ⟨_, ho⟩ := (Prod.mk.injEq ..).mp h
            simp at ho
          · rw [processLines_directive h3 h4] at h
            obtain ⟨a1, a2, a3, a4, a5⟩ := ih cfgm cfg' calls h
            rcases optionMatch_keys h3 with hk | hk | hk | hk | hk <;> subst hk
            · have hm := applyDirective_prompt h4
              subst hm
              rw [directiveArgs_cons_eq h3,
                directiveArgs_cons_ne h3 (by decide),
                directiveArgs_cons_ne h3 (by decide),
                directiveArgs_cons_ne h3 (by decide),
                directiveArgs_cons_ne h3 (by decide)]
              exact ⟨a1, a2, by rw [a3, getLast?_cons_getD], a4, a5⟩
            · have hm := applyDirective_shell h4
              subst hm
              rw [directiveArgs_cons_eq h3,
                directiveArgs_cons_ne h3 (by decide),
                directiveArgs_cons_ne h3 (by decide),
                directiveArgs_cons_ne h3 (by decide),
                directiveArgs_cons_ne h3 (by decide)]
              exact ⟨a1, a2, a3, by rw [a4, getLast?_cons_getD], a5⟩
            · have hm := applyDirective_alias h4
              subst hm
              rw [directiveArgs_cons_eq h3,
                directiveArgs_cons_ne h3 (by decide),
                directiveArgs_cons_ne h3 (by decide),
                directiveArgs_cons_ne h3 (by decide),
                directiveArgs_cons_ne h3 (by decide)]
              refine ⟨?_, a2, a3, a4, a5⟩
              rw [a1]
              simp
            · have hm := applyDirective_env h4
              subst hm
              rw [directiveArgs_cons_eq h3,
                directiveArgs_cons_ne h3 (by decide),
                directiveArgs_cons_ne h3 (by decide),
                directiveArgs_cons_ne h3 (by decide),
                directiveArgs_cons_ne h3 (by decide)]
              refine ⟨a1, ?_, a3, a4, a5⟩
              rw [a2]
              simp
            · obtain ⟨m, hm, hcfgm⟩ := applyDirective_speed h4
              subst hcfgm
              rw [directiveArgs_cons_eq h3,
                directiveArgs_cons_ne h3 (by decide),
                directiveArgs_cons_ne h3 (by decide),
                directiveArgs_cons_ne h3 (by decide),
                directiveArgs_cons_ne h3 (by decide)]
              refine ⟨a1, a2, a3, a4, ?_⟩
              rw [a5, List.filterMap_cons, hm, getLast?_cons_getD]
      · have h2' : pyStartsWith (pyStrip line) "#" = false := by simpa using h2
        rw [processLines_cmd h1 h2'] at h
        obtain ⟨_, ho⟩ := (Prod.mk.injEq ..).mp h
        have hopt : optionMatch (pyStrip line) = none := by
          cases hopt : optionMatch (pyStrip line) with
          | none => rfl
          | some p =>
            obtain ⟨hh, _⟩ := optionMatch_some_hash hopt
            rw [hh] at h2'
            simp at h2'
        simp only [directiveArgs_cons_none hopt]
        have h' : processLines cfg rest = ((processLines cfg rest).1, .ok cfg') := by
          rw [← ho]
        exact ih cfg cfg' (processLines cfg rest).1 h'

/-- Directive effects are local and forward-only: processing `l1 ++ l2`
runs `l1` from the initial configuration and then `l2` from `l1`'s final
configuration; the calls of `l1` are unchanged by whatever follows. -/
theorem processLines_append :
    ∀ (l1 : List String) (cfg cfg1 : Config) (calls1 : List ExecCall) (l2 : List String),
      processLines cfg l1 = (calls1, .ok cfg1) →
      processLines cfg (l1 ++ l2) =
        (calls1 ++ (processLines cfg1 l2).1, (processLines cfg1 l2).2) := by
  intro l1
  induction l1 with
  | nil =>
    intro cfg cfg1 calls1 l2 h
    simp only [processLines] at h
    obtain ⟨hc, ho⟩ := (Prod.mk.injEq ..).mp h
    have hcfg : cfg = cfg1 := by simpa using ho
    subst hcfg
    rw [← hc]
    simp
  | cons line rest ih =>
    intro cfg cfg1 calls1 l2 h
    rw [List.cons_append]
    by_cases h1 : pyStrip line = ""
    · rw [processLines_blank h1] at h ⊢
      exact ih cfg cfg1 calls1 l2 h
    · by_cases h2 : pyStartsWith (pyStrip line) "#" = true
      · rcases h3 : optionMatch (pyStrip line) with _ | ⟨opt, arg⟩
        · rw [processLines_comment h1 h2 h3] at h ⊢
          exact ih cfg cfg1 calls1 l2 h
        · rcases h4 : applyDirective cfg opt arg with e | cfgm
          · rw [processLines_directive_err h3 h4] at h
            obtain ⟨_, ho⟩ := (Prod.mk.injEq ..).mp h
            simp at ho
          · rw [processLines_directive h3 h4] at h ⊢
            exact ih cfgm cfg1 calls1 l2 h
      · have h2' : pyStartsWith (pyStrip line) "#" = false := by simpa using h2
        rw [processLines_cmd h1 h2'] at h ⊢
        obtain ⟨hc, ho⟩ := (Prod.mk.injEq ..).mp h
        have h' : processLines cfg rest = ((processLines cfg rest).1, .ok cfg1) := by
          rw [← ho]
        rw [ih cfg cfg1 (processLines cfg rest).1 l2 h', ← hc]
        simp

/-! ## Claim theorems -/

/-- Claim C1: for every styled value, the bracket modifiers (`paren`,
`square`, `curly`) and the `git` label modifier wrap the styled value in
exactly one matching delimiter pair (resp. one colored `git:` label)
when its ANSI-stripped text is non-empty, and otherwise produce the
single backspace character — a zero-width result that displays nothing
and contains no literal brackets or bare label. -/
theorem doitlive_c1 (s : String) :
    (stripAnsi s ≠ "" →
      parenMod s = "(" ++ s ++ ")" ∧ squareMod s = "[" ++ s ++ "]" ∧
      curlyMod s = "\x7b" ++ s ++ "\x7d" ∧ gitMod s = gitLabel ++ ":" ++ s) ∧
    (stripAnsi s = "" →
      parenMod s = "\x08" ∧ squareMod s = "\x08" ∧ curlyMod s = "\x08" ∧
      gitMod s = "\x08" ∧ termRender "\x08" = "") := by
  constructor
  · intro h
    simp [parenMod, squareMod, curlyMod, gitMod, bracketed, h]
  · intro h
    refine ⟨?_, ?_, ?_, ?_, rfl⟩ <;>
      simp [parenMod, squareMod, curlyMod, gitMod, bracketed, h]

/-- Witness for C1 at a styled non-empty value and at an empty one. -/
theorem doitlive_c1_witness :
    (stripAnsi "\x1b[32mx\x1b[0m" ≠ "" ∧
      parenMod "\x1b[32mx\x1b[0m" = "(" ++ "\x1b[32mx\x1b[0m" ++ ")") ∧
    (stripAnsi "\x1b[32m\x1b[0m" = "" ∧ parenMod "\x1b[32m\x1b[0m" = "\x08") :=
  ⟨⟨by decide, ((doitlive_c1 "\x1b[32mx\x1b[0m").1 (by decide)).1⟩,
   ⟨by decide, ((doitlive_c1 "\x1b[32m\x1b[0m").2 (by decide)).1⟩⟩

/-- Claim C9 (code bug): `get_current_git_branch` returns the empty
string when the git process runs and prints nothing (failed lookup, not
a repository), but when the git executable cannot be spawned the
`OSError` escapes — the `except` clause only names
`subprocess.CalledProcessError`, which `Popen`/`communicate` never
raise — contradicting the claim that no failure ever propagates. -/
theorem doitlive_c9 :
    get_current_git_branch .spawnError = .error .osError ∧
    get_current_git_branch (.runs "") = .ok "" ∧
    get_current_git_branch (.runs "master\n") = .ok "master" :=
  ⟨rfl, rfl, rfl⟩

/-- Claim C10: a directive line with a key but nothing after the colon
does not match `OPTION_RE` (the argument group needs at least one
character), so it is treated as a plain comment: no configuration
change, no executed command, no error. -/
theorem doitlive_c10 (cfg : Config) :
    optionMatch "#doitlive prompt:" = none ∧
    optionMatch "#doitlive shell:" = none ∧
    optionMatch "#doitlive alias:" = none ∧
    optionMatch "#doitlive env:" = none ∧
    optionMatch "#doitlive speed:" = none ∧
    processLines cfg ["#doitlive speed:"] = ([], .ok cfg) ∧
    processLines cfg ["#doitlive alias:"] = ([], .ok cfg) := by
  refine ⟨by decide, by decide, by decide, by decide, by decide, ?_, ?_⟩
  · rw [processLines_comment (by decide) (by decide) (by decide)]
    rfl
  · rw [processLines_comment (by decide) (by decide) (by decide)]
    rfl

/-- Claim C2: for a command of length `L` and speed `n ≥ 1`, exactly
`ceil(L/n)` non-escape keystrokes reveal the full command text (each
keystroke reveals the next `n` characters; fewer keystrokes leave it
partially revealed), after which `magictype` waits for a return
keystroke: a return at that point confirms, and without any return the
command is never confirmed (hence never executed). -/
theorem doitlive_c2 (text : String) (n : Nat) (keys : List Char)
    (hn : 1 ≤ n) (hesc : ∀ k ∈ keys, k ≠ ESC) :
    ((text.data.length + n - 1) / n ≤ keys.length →
      typeLoop text.data (n : Int) 0 [] keys =
        .typed text.data (keys.drop ((text.data.length + n - 1) / n))) ∧
    (keys.length < (text.data.length + n - 1) / n →
      typeLoop text.data (n : Int) 0 [] keys =
        .starved (text.data.take (keys.length * n))) ∧
    (∀ r, isReturn r = true → (text.data.length + n - 1) / n ≤ keys.length →
      typeConfirm text (n : Int) (keys.take ((text.data.length + n - 1) / n) ++ [r]) =
        .confirmed []) ∧
    ((∀ k ∈ keys, isReturn k = false) →
      typeConfirm text (n : Int) keys = .starved) := by
  have base := typeLoop_noesc text.data n hn keys hesc 0 []
  have hz : text.data.length - 0 = text.data.length := by omega
  rw [hz] at base
  simp only [List.nil_append, List.drop_zero, Nat.cast_zero] at base
  refine ⟨?_, ?_, ?_, ?_⟩
  · intro hle
    rw [base, if_pos hle]
  · intro hlt
    rw [base, if_neg (by omega)]
  · intro r hr hle
    have hrn : r ≠ ESC := by
      intro h
      subst h
      simp [isReturn, ESC] at hr
    set c := (text.data.length + n - 1) / n with hc
    have hlen : (keys.take c).length = c := by
      rw [List.length_take]
      omega
    have hesc' : ∀ k ∈ keys.take c ++ [r], k ≠ ESC := by
      intro k hk
      rcases List.mem_append.mp hk with h1 | h1
      · exact hesc k (List.mem_of_mem_take h1)
      · rw [List.mem_singleton.mp h1]
        exact hrn
    have base' := typeLoop_noesc text.data n hn (keys.take c ++ [r]) hesc' 0 []
    rw [hz] at base'
    simp only [List.nil_append, List.drop_zero, Nat.cast_zero] at base'
    have hle' : c ≤ (keys.take c ++ [r]).length := by
      rw [List.length_append, hlen]
      omega
    have hdrop : (keys.take c ++ [r]).drop c = [r] := by
      have h := List.drop_left (keys.take c) [r]
      rwa [hlen] at h
    unfold typeConfirm
    rw [base', if_pos hle', hdrop]
    simp [wait_for, hrn, hr]
  · intro hnr
    unfold typeConfirm
    rw [base]
    by_cases hle : (text.data.length + n - 1) / n ≤ keys.length
    · rw [if_pos hle]
      have hw := wait_for_starved isReturn (keys.drop ((text.data.length + n - 1) / n))
        (fun x hx => ⟨hesc x (List.mem_of_mem_drop hx), hnr x (List.mem_of_mem_drop hx)⟩)
      simp at hw ⊢
      simp [hw]
    · rw [if_neg hle]

/-- If the keystroke phase confirms, the typing loop emitted the whole
text and the consumed keys were escape-free and ended in a return. -/
theorem typeConfirm_confirmed_inv (text : String) (speed : Int) (hs : 1 ≤ speed)
    (keys rest : List Char) (h : typeConfirm text speed keys = .confirmed rest) :
    (∃ mid, typeLoop text.data speed 0 [] keys = .typed text.data mid) ∧
    ∃ used r', keys = used ++ r' :: rest ∧ isReturn r' = true ∧
      (∀ k ∈ used, k ≠ ESC) ∧ r' ≠ ESC := by
  have hcast : speed = ((speed.toNat : Nat) : Int) := by omega
  unfold typeConfirm at h
  split at h
  · simp at h
  · simp at h
  · next e mid htyped =>
    split at h
    · simp at h
    · simp at h
    · next r rest0 hgot =>
      have hrest : rest0 = rest := by simpa using h
      subst hrest
      rw [hcast] at htyped
      obtain ⟨he, usedT, hkeys, hescT⟩ :=
        typeLoop_typed_inv text.data speed.toNat keys 0 [] e mid htyped
      have he' : e = text.data := by simpa using he
      subst he'
      obtain ⟨skipped, hmid, hskip, hacc, hresc⟩ :=
        wait_for_got_inv isReturn mid r rest0 hgot
      constructor
      · exact ⟨mid, by rw [← hcast] at htyped; simpa using htyped⟩
      · refine ⟨usedT ++ skipped, r, ?_, hacc, ?_, hresc⟩
        · rw [hkeys, hmid, List.append_assoc]
        · intro k hk
          rcases List.mem_append.mp hk with h1 | h1
          · exact hescT k h1
          · exact (hskip k h1).1

/-- Witness for C2: text of length 3 at speed 2 needs ceil(3/2) = 2
keystrokes, and a return then confirms. -/
theorem doitlive_c2_witness :
    typeLoop "abc".data (2 : Int) 0 [] ['x', 'y'] = TypeRes.typed "abc".data [] ∧
    typeConfirm "abc" (2 : Int) (['x', 'y'].take 2 ++ ['\r']) = ConfirmRes.confirmed [] := by
  have h := doitlive_c2 "abc" 2 ['x', 'y'] (by omega) (by decide)
  exact ⟨h.1 (by decide), (h.2.2.1 '\r' (by decide) (by decide))⟩

/-- Claim C3: (1) a command is handed to `run_command` only when its
keystroke phase confirmed; (2) confirmation requires the typing loop to
have revealed the whole text and an escape-free key sequence ending in a
return — so the full text is displayed and a return confirmed before any
execution; (3) a playback aborted by escape during some command's typing
or return-wait has executed exactly the commands confirmed before it —
an initial segment of the full-playback call list that stops right
before the aborted command — so neither that command nor any later
instruction is ever executed. -/
theorem doitlive_c3 :
    (∀ (ctx : Ctx) (cwd text shell : String) (aliases envvars : List String)
        (speed : Int) (tm : Bool) (keys : List Char) (evs : List SEv)
        (cwd' : String) (rest' : List Char),
      magictype ctx cwd text shell aliases envvars speed tm keys = .ok evs cwd' rest' →
      typeConfirm text speed keys = .confirmed rest') ∧
    (∀ (text : String) (speed : Int) (keys rest : List Char), 1 ≤ speed →
      typeConfirm text speed keys = .confirmed rest →
      (∃ mid, typeLoop text.data speed 0 [] keys = .typed text.data mid) ∧
      ∃ used r', keys = used ++ r' :: rest ∧ isReturn r' = true ∧
        (∀ k ∈ used, k ≠ ESC) ∧ r' ≠ ESC) ∧
    (∀ (ctx : Ctx) (tm : Bool) (lines : List String) (cfg : Config) (cwd : String)
        (keys : List Char) (c : String),
      (run ctx cfg cwd tm lines keys).outcome = .abortedDuring c →
      execCallsOf (run ctx cfg cwd tm lines keys).events =
        (processLines cfg lines).1.take
          (execCallsOf (run ctx cfg cwd tm lines keys).events).length ∧
      (execCallsOf (run ctx cfg cwd tm lines keys).events).length <
        (processLines cfg lines).1.length ∧
      ((processLines cfg lines).1[(execCallsOf
          (run ctx cfg cwd tm lines keys).events).length]?).map ExecCall.cmd = some c) := by
  refine ⟨?_, ?_, ?_⟩
  · intro ctx cwd text shell aliases envvars speed tm keys evs cwd' rest' h
    exact (magictype_ok_inv h).1
  · intro text speed keys rest hs h
    exact typeConfirm_confirmed_inv text speed hs keys rest h
  · intro ctx tm lines cfg cwd keys c h
    exact run_aborted_inseg ctx tm lines cfg cwd keys c h

/-- Witness for C3: a two-command session where escape arrives during
the second command's typing executes only the first command. -/
theorem doitlive_c3_witness :
    typeConfirm "ls" (1 : Int) ['a', 'a', '\r'] = ConfirmRes.confirmed [] ∧
    (∃ mid, typeLoop "ls".data (1 : Int) 0 [] ['a', 'a', '\r'] =
      TypeRes.typed "ls".data mid) ∧
    (execCallsOf (run ⟨fun _ => none, "/r", none, fun _ => 0⟩ defaultConfig "/w" false
        ["ls", "pwd"] ['a', 'a', '\r', 'a', ESC]).events).length <
      (processLines defaultConfig ["ls", "pwd"]).1.length := by
  refine ⟨?_, ?_, ?_⟩
  · exact doitlive_c3.1 ⟨fun _ => none, "/r", none, fun _ => 0⟩ "/w" "ls" "/bin/bash"
      [] [] 1 false ['a', 'a', '\r']
      (SEv.execCall ⟨"ls", "/bin/bash", [], []⟩ ::
        (run_command ⟨fun _ => none, "/r", none, fun _ => 0⟩ "/w" "ls" "/bin/bash"
          [] [] false).1)
      "/w" [] (by decide)
  · exact (doitlive_c3.2.1 "ls" 1 ['a', 'a', '\r'] [] (by decide) (by decide)).1
  · exact (doitlive_c3.2.2 ⟨fun _ => none, "/r", none, fun _ => 0⟩ false ["ls", "pwd"]
      defaultConfig "/w" ['a', 'a', '\r', 'a', ESC] "pwd" (by decide)).2.1

/-- Claim C6: over any successful fold of a script, alias and env
directives append to their lists in file-encounter order (never
reordered, removed or deduplicated), a later `prompt`/`shell`/`speed`
directive overwrites the earlier value entirely (last write wins), and
directive effects are strictly forward: processing `lines ++ later`
replays `lines` identically and only then applies `later` from the
resulting configuration. -/
theorem doitlive_c6 (cfg cfg' : Config) (lines l2 : List String) (calls : List ExecCall)
    (h : processLines cfg lines = (calls, .ok cfg')) :
    cfg'.aliases = cfg.aliases ++ directiveArgs "alias" lines ∧
    cfg'.envvars = cfg.envvars ++ directiveArgs "env" lines ∧
    cfg'.promptTemplate =
      ((directiveArgs "prompt" lines).getLast?).getD cfg.promptTemplate ∧
    cfg'.shell = ((directiveArgs "shell" lines).getLast?).getD cfg.shell ∧
    cfg'.speed =
      (((directiveArgs "speed" lines).filterMap pyInt).getLast?).getD cfg.speed ∧
    processLines cfg (lines ++ l2) =
      (calls ++ (processLines cfg' l2).1, (processLines cfg' l2).2) := by
  obtain ⟨a1, a2, a3, a4, a5⟩ := processLines_spec lines cfg cfg' calls h
  exact ⟨a1, a2, a3, a4, a5, processLines_append lines cfg cfg' calls l2 h⟩

/-- Witness for C6 on a session with repeated prompt and speed
directives, one alias, one env var, and a trailing command. -/
theorem doitlive_c6_witness :
    ({ shell := "/bin/bash", promptTemplate := "p2", speed := 4,
       aliases := ["a=1"], envvars := ["E=2"] } : Config).aliases =
      defaultConfig.aliases ++ directiveArgs "alias"
        ["#doitlive alias: a=1", "#doitlive env: E=2", "#doitlive prompt: p1",
         "#doitlive prompt: p2", "#doitlive speed: 3", "#doitlive speed: 4", "ls"] ∧
    processLines defaultConfig
        (["#doitlive alias: a=1", "#doitlive env: E=2", "#doitlive prompt: p1",
          "#doitlive prompt: p2", "#doitlive speed: 3", "#doitlive speed: 4", "ls"] ++
          ["pwd"]) =
      ([⟨"ls", "/bin/bash", ["a=1"], ["E=2"]⟩] ++
        (processLines { shell := "/bin/bash", promptTemplate := "p2", speed := 4,
                        aliases := ["a=1"], envvars := ["E=2"] } ["pwd"]).1,
       (processLines { shell := "/bin/bash", promptTemplate := "p2", speed := 4,
                       aliases := ["a=1"], envvars := ["E=2"] } ["pwd"]).2) := by
  have h := doitlive_c6 defaultConfig
    { shell := "/bin/bash", promptTemplate := "p2", speed := 4,
      aliases := ["a=1"], envvars := ["E=2"] }
    ["#doitlive alias: a=1", "#doitlive env: E=2", "#doitlive prompt: p1",
     "#doitlive prompt: p2", "#doitlive speed: 3", "#doitlive speed: 4", "ls"]
    ["pwd"] [⟨"ls", "/bin/bash", ["a=1"], ["E=2"]⟩] rfl
  exact ⟨h.1, h.2.2.2.2.2⟩

/-- Counterexample for C7: the directive `#doitlive speed: 0` parses
without error and sets the speed to 0, which is not a positive
integer. -/
theorem doitlive_c7_counterexample :
    (processLines defaultConfig ["#doitlive speed: 0"]).2 =
      .ok { shell := "/bin/bash", promptTemplate := "default", speed := 0,
            aliases := [], envvars := [] } ∧
    ¬ (1 ≤ ({ shell := "/bin/bash", promptTemplate := "default", speed := 0,
              aliases := [], envvars := [] } : Config).speed) :=
  ⟨rfl, by decide⟩

/-- Claim C7 (amended): the parser performs no positivity check — after
a successful fold the speed is the last parsed speed value (or the
initial speed), so it is ≥ 1 provided the initial speed is ≥ 1 and every
speed directive's value parses to an integer ≥ 1; a script whose speed
directive carries 0 or a negative value does set a non-positive speed. -/
theorem doitlive_c7 (cfg cfg' : Config) (lines : List String) (calls : List ExecCall)
    (h : processLines cfg lines = (calls, .ok cfg'))
    (hinit : 1 ≤ cfg.speed)
    (hargs : ∀ a ∈ directiveArgs "speed" lines, ∀ m, pyInt a = some m → 1 ≤ m) :
    1 ≤ cfg'.speed := by
  have hs := (processLines_spec lines cfg cfg' calls h).2.2.2.2
  cases hg : ((directiveArgs "speed" lines).filterMap pyInt).getLast? with
  | none =>
    rw [hs, hg]
    exact hinit
  | some m =>
    rw [hs, hg]
    have hmem : m ∈ (directiveArgs "speed" lines).filterMap pyInt :=
      List.mem_of_mem_getLast? hg
    obtain ⟨a, ha, hpa⟩ := List.mem_filterMap.mp hmem
    exact hargs a ha m hpa

/-- Witness for C7 on a script whose only speed directive carries 2. -/
theorem doitlive_c7_witness :
    1 ≤ ({ shell := "/bin/bash", promptTemplate := "default", speed := 2,
           aliases := [], envvars := [] } : Config).speed :=
  doitlive_c7 defaultConfig
    { shell := "/bin/bash", promptTemplate := "default", speed := 2,
      aliases := [], envvars := [] }
    ["#doitlive speed: 2"] [] rfl (by decide)
    (by
      intro a ha m hm
      have ha' : a = "2" := by
        have : directiveArgs "speed" ["#doitlive speed: 2"] = ["2"] := by decide
        rw [this] at ha
        simpa using ha
      subst ha'
      have h2 : pyInt "2" = some 2 := by decide
      rw [h2] at hm
      have : (2 : Int) = m := by simpa using hm
      omega)

theorem concatLines_append (l1 l2 : List String) :
    concatLines (l1 ++ l2) = concatLines l1 ++ concatLines l2 := by
  induction l1 with
  | nil => simp [concatLines]
  | cons x t ih =>
    simp only [concatLines, List.cons_append, List.foldr_cons] at ih ⊢
    rw [ih, String.append_assoc, String.append_assoc]
    rw [String.append_assoc]

theorem write_commands_concat (c : String) (args : List String) :
    write_commands c args = concatLines (args.map (fun a => c ++ " " ++ a)) := by
  have aux : ∀ (args : List String) (acc : String),
      args.foldl (fun acc a => acc ++ c ++ " " ++ a ++ "\n") acc =
        acc ++ concatLines (args.map (fun a => c ++ " " ++ a)) := by
    intro args
    induction args with
    | nil => intro acc; simp [concatLines]
    | cons a t ih =>
      intro acc
      simp only [List.foldl_cons, List.map_cons, concatLines, List.foldr_cons]
      rw [ih]
      simp [String.append_assoc, concatLines]
  have h := aux args ""
  unfold write_commands
  rw [h]
  simp

/-- Counterexample for C4: for the line `cd a b` the target passed to
`os.chdir` is the second whitespace token `a`, not the remainder
`a b` of the line as the claim states. -/
theorem doitlive_c4_counterexample :
    (run_command ⟨fun _ => none, "/h", none, fun _ => 0⟩ "/w" "cd a b" "/bin/bash"
        [] [] false).1 =
      [SEv.cdAttempt "a", SEv.warn "No such file or directory: a"] ∧
    "a" ≠ expanduser "/h" "a b" := by
  decide

/-- Claim C4 (amended): for a command starting with `cd ` the executor
takes the *second whitespace-delimited token* of the line (not the whole
remainder) as the target, expands a leading home-directory shorthand and
attempts to change directory; on failure a warning naming the raw token
is printed, the working directory is unchanged and the call returns
normally, and playback continues with the next instruction (shown on a
session that runs `cd /nope` against a filesystem where it fails and
then still executes `ls` to completion with an unchanged cwd). -/
theorem doitlive_c4 (ctx : Ctx) (cwd cmd shell : String)
    (aliases envvars : List String) (tm : Bool) (dir : String)
    (h1 : pyStartsWith cmd "cd " = true)
    (h2 : (pySplit cmd).get? 1 = some dir) :
    (ctx.fs (expanduser ctx.home dir) = none →
      run_command ctx cwd cmd shell aliases envvars tm =
        ([.cdAttempt (expanduser ctx.home dir),
          .warn ("No such file or directory: " ++ dir)], cwd, .ok ())) ∧
    (∀ c', ctx.fs (expanduser ctx.home dir) = some c' →
      run_command ctx cwd cmd shell aliases envvars tm =
        ([.cdAttempt (expanduser ctx.home dir)], c', .ok ())) ∧
    (execCallsOf (run ⟨fun _ => none, "/h", none, fun _ => 0⟩ defaultConfig "/w" false
        ["cd /nope", "ls"]
        ['a', 'a', 'a', 'a', 'a', 'a', 'a', 'a', '\r', 'a', 'a', '\r', '\r']).events =
      [⟨"cd /nope", "/bin/bash", [], []⟩, ⟨"ls", "/bin/bash", [], []⟩] ∧
     SEv.warn "No such file or directory: /nope" ∈
       (run ⟨fun _ => none, "/h", none, fun _ => 0⟩ defaultConfig "/w" false
         ["cd /nope", "ls"]
         ['a', 'a', 'a', 'a', 'a', 'a', 'a', 'a', '\r', 'a', 'a', '\r', '\r']).events ∧
     (run ⟨fun _ => none, "/h", none, fun _ => 0⟩ defaultConfig "/w" false
       ["cd /nope", "ls"]
       ['a', 'a', 'a', 'a', 'a', 'a', 'a', 'a', '\r', 'a', 'a', '\r', '\r']).outcome =
       .finished ∧
     (run ⟨fun _ => none, "/h", none, fun _ => 0⟩ defaultConfig "/w" false
       ["cd /nope", "ls"]
       ['a', 'a', 'a', 'a', 'a', 'a', 'a', 'a', '\r', 'a', 'a', '\r', '\r']).cwd = "/w") := by
  refine ⟨?_, ?_, by decide, by decide, by decide, by decide⟩
  · intro hfs
    unfold run_command
    rw [if_pos h1, h2]
    dsimp only
    rw [hfs]
  · intro c' hfs
    unfold run_command
    rw [if_pos h1, h2]
    dsimp only
    rw [hfs]

/-- Witness for C4 at `cd /nope` with a filesystem that rejects it. -/
theorem doitlive_c4_witness :
    run_command ⟨fun _ => none, "/h", none, fun _ => 0⟩ "/w" "cd /nope" "/bin/bash"
        [] [] false =
      ([SEv.cdAttempt (expanduser "/h" "/nope"),
        SEv.warn ("No such file or directory: " ++ "/nope")], "/w", .ok ()) :=
  (doitlive_c4 ⟨fun _ => none, "/h", none, fun _ => 0⟩ "/w" "cd /nope" "/bin/bash"
    [] [] false "/nope" (by decide) (by decide)).1 rfl

/-- Counterexample for C5: the claimed in-script order — shebang, then
exports, then aliases, then the alias-expansion line, then the command —
is not even a subsequence of the script the code writes, because the
code emits `shopt -s expand_aliases` right after the header, before any
export or alias line. -/
theorem doitlive_c5_counterexample :
    ¬ List.Sublist
      ["#!/bin/bash", "export A=1", "alias g=git", "shopt -s expand_aliases", "ls"]
      (linesOf (scriptContent "/bin/bash" ["A=1"] ["g=git"] "ls")) := by
  decide

/-- Claim C5 (amended): the temporary interpreter script consists, in
order, of the shebang naming the resolved shell, a coding comment, the
alias-expansion line when the shell path contains `bash`, one export
line per env var in accumulation order, one alias line per alias in
accumulation order, and the literal command line; and for every non-`cd`
command the recorded file events are create, execute, remove — the
removal happening last on every exit path (any `test_mode` and any child
exit status, including the failing one). -/
theorem doitlive_c5 (shell' cmd : String) (envvars aliases : List String)
    (ctx : Ctx) (cwd : String) (tm : Bool)
    (hcd : pyStartsWith cmd "cd " = false) :
    scriptContent shell' envvars aliases cmd =
      concatLines (["#!" ++ shell', "# -*- coding: utf-8 -*-"] ++
        (if pyContains shell' "bash" then ["shopt -s expand_aliases"] else []) ++
        envvars.map (fun v => "export " ++ v) ++
        aliases.map (fun a => "alias " ++ a) ++ [cmd]) ∧
    (run_command ctx cwd cmd shell' aliases envvars tm).1 =
      [.scriptCreate (linesOf (scriptContent (resolveShell ctx.interp shell')
          envvars aliases cmd)),
       .scriptExec (resolveShell ctx.interp shell'), .scriptRemove] ∧
    (run_command ctx cwd cmd shell' aliases envvars tm).1.getLast? =
      some SEv.scriptRemove := by
  refine ⟨?_, ?_, ?_⟩
  · unfold scriptContent
    rw [write_commands_concat, write_commands_concat, concatLines_append,
      concatLines_append, concatLines_append, concatLines_append]
    by_cases hb : pyContains shell' "bash" = true
    · simp only [hb, if_pos]
      simp [concatLines, String.append_assoc]
    · simp only [hb]
      simp [concatLines, String.append_assoc]
  · unfold run_command
    rw [if_neg (by simp [hcd])]
    dsimp only
    split
    · rfl
    · rfl
  · unfold run_command
    rw [if_neg (by simp [hcd])]
    dsimp only
    split
    · rfl
    · rfl

/-- Witness for C5 on a bash shell with one env var and one alias. -/
theorem doitlive_c5_witness :
    scriptContent "/bin/bash" ["A=1"] ["g=git"] "ls" =
      concatLines (["#!" ++ "/bin/bash", "# -*- coding: utf-8 -*-"] ++
        (if pyContains "/bin/bash" "bash" then ["shopt -s expand_aliases"] else []) ++
        (["A=1"] : List String).map (fun v => "export " ++ v) ++
        (["g=git"] : List String).map (fun a => "alias " ++ a) ++ ["ls"]) ∧
    (run_command ⟨fun _ => none, "/h", none, fun _ => 0⟩ "/w" "ls" "/bin/bash"
        ["g=git"] ["A=1"] false).1.getLast? = some SEv.scriptRemove := by
  have h := doitlive_c5 "/bin/bash" "ls" ["A=1"] ["g=git"]
    ⟨fun _ => none, "/h", none, fun _ => 0⟩ "/w" false (by decide)
  exact ⟨h.1, h.2.2⟩

/-- Claim C8: recording the commands `ls` and `pwd` with shell
`/bin/bash` and prompt `default`, then stopping, serialises a script
whose replay executes exactly `ls` then `pwd`, in that order, under
shell `/bin/bash`, and finishes. The serialised header directives are
re-recognised by the directive grammar: even a player started with a
different shell (`/bin/zsh`) executes both commands under `/bin/bash`
because the `#doitlive shell:` line overwrites it, while the
free-text header comment is ignored. -/
theorem doitlive_c8 :
    run_recorder [] [] ["ls", "pwd", "stop"] = some ["ls", "pwd"] ∧
    execCallsOf (run ⟨fun _ => none, "/root", none, fun _ => 0⟩ defaultConfig "/w" false
        (readlines (recordSerialize "/bin/bash" "default" [] [] ["ls", "pwd"]))
        ['a', 'a', '\r', 'a', 'a', 'a', '\r', '\r']).events =
      [⟨"ls", "/bin/bash", [], []⟩, ⟨"pwd", "/bin/bash", [], []⟩] ∧
    (run ⟨fun _ => none, "/root", none, fun _ => 0⟩ defaultConfig "/w" false
        (readlines (recordSerialize "/bin/bash" "default" [] [] ["ls", "pwd"]))
        ['a', 'a', '\r', 'a', 'a', 'a', '\r', '\r']).outcome = Outcome.finished ∧
    execCallsOf (run ⟨fun _ => none, "/root", none, fun _ => 0⟩
        { defaultConfig with shell := "/bin/zsh" } "/w" false
        (readlines (recordSerialize "/bin/bash" "default" [] [] ["ls", "pwd"]))
        ['a', 'a', '\r', 'a', 'a', 'a', '\r', '\r']).events =
      [⟨"ls", "/bin/bash", [], []⟩, ⟨"pwd", "/bin/bash", [], []⟩] := by
  decide

end Doitlive
